import Mathlib

/-!
Verification of the structured-merge-diff core against its specification.

The Go sources are shallowly embedded:
  * `value/value.go`  — the `Value` tagged union, `Map.Get`, `HumanReadable`.
  * `typed/validate.go` — path-element derivation and the validating walker.
  * the schema-less guesser (`GuessBestListPathElement`) and the removing
    walker (`removeItemsWithSchema` and friends) from the unnamed files.
  * `fieldpath/strings/table.go` — the versioned string table.

Go machine integers are modelled as `Int` (no arithmetic that could overflow
occurs in the embedded code).  The Go `float64` payload of a scalar is
abstracted to an `Int` tag: the embedded code never performs floating-point
arithmetic on it in any code path a claim touches.  Fallible Go functions
returning `(T, error)` become `Except String T`; a Go runtime panic
(out-of-range slice index) is modelled as `Option.none`.
-/

set_option maxHeartbeats 1000000

namespace SMD

mutual

/-- Embeds `value.Value` (value/value.go): a closed tagged union following the
documented invariant "exactly one of the fields is set".  `float` abstracts
the Go `float64` payload (see module comment). -/
inductive Value where
  | float (f : Int)
  | int (i : Int)
  | str (s : String)
  | boolean (b : Bool)
  | list (items : List Value)
  | map (items : List Field)
  | null

/-- Embeds `value.Field`: an individual key-value pair of a `Map`. -/
inductive Field where
  | mk (name : String) (value : Value)

end

/-- The `Name` accessor of `value.Field`. -/
def Field.name : Field → String
  | .mk n _ => n

/-- The `Value` accessor of `value.Field`. -/
def Field.value : Field → Value
  | .mk _ v => v

@[simp] theorem fieldNameMk (n : String) (v : Value) : (Field.mk n v).name = n := rfl

@[simp] theorem fieldValueMk (n : String) (v : Value) : (Field.mk n v).value = v := rfl

mutual

def Value.decEq : (a b : Value) → Decidable (a = b)
  | .float x, .float y => decidable_of_iff (x = y) (by simp)
  | .int x, .int y => decidable_of_iff (x = y) (by simp)
  | .str x, .str y => decidable_of_iff (x = y) (by simp)
  | .boolean x, .boolean y => decidable_of_iff (x = y) (by simp)
  | .null, .null => .isTrue rfl
  | .list xs, .list ys =>
    match valueListDecEq xs ys with
    | .isTrue h => .isTrue (by rw [h])
    | .isFalse h => .isFalse (by simp [h])
  | .map xs, .map ys =>
    match fieldListDecEq xs ys with
    | .isTrue h => .isTrue (by rw [h])
    | .isFalse h => .isFalse (by simp [h])
  | .float _, .int _ => .isFalse (fun h => Value.noConfusion h)
  | .float _, .str _ => .isFalse (fun h => Value.noConfusion h)
  | .float _, .boolean _ => .isFalse (fun h => Value.noConfusion h)
  | .float _, .list _ => .isFalse (fun h => Value.noConfusion h)
  | .float _, .map _ => .isFalse (fun h => Value.noConfusion h)
  | .float _, .null => .isFalse (fun h => Value.noConfusion h)
  | .int _, .float _ => .isFalse (fun h => Value.noConfusion h)
  | .int _, .str _ => .isFalse (fun h => Value.noConfusion h)
  | .int _, .boolean _ => .isFalse (fun h => Value.noConfusion h)
  | .int _, .list _ => .isFalse (fun h => Value.noConfusion h)
  | .int _, .map _ => .isFalse (fun h => Value.noConfusion h)
  | .int _, .null => .isFalse (fun h => Value.noConfusion h)
  | .str _, .float _ => .isFalse (fun h => Value.noConfusion h)
  | .str _, .int _ => .isFalse (fun h => Value.noConfusion h)
  | .str _, .boolean _ => .isFalse (fun h => Value.noConfusion h)
  | .str _, .list _ => .isFalse (fun h => Value.noConfusion h)
  | .str _, .map _ => .isFalse (fun h => Value.noConfusion h)
  | .str _, .null => .isFalse (fun h => Value.noConfusion h)
  | .boolean _, .float _ => .isFalse (fun h => Value.noConfusion h)
  | .boolean _, .int _ => .isFalse (fun h => Value.noConfusion h)
  | .boolean _, .str _ => .isFalse (fun h => Value.noConfusion h)
  | .boolean _, .list _ => .isFalse (fun h => Value.noConfusion h)
  | .boolean _, .map _ => .isFalse (fun h => Value.noConfusion h)
  | .boolean _, .null => .isFalse (fun h => Value.noConfusion h)
  | .list _, .float _ => .isFalse (fun h => Value.noConfusion h)
  | .list _, .int _ => .isFalse (fun h => Value.noConfusion h)
  | .list _, .str _ => .isFalse (fun h => Value.noConfusion h)
  | .list _, .boolean _ => .isFalse (fun h => Value.noConfusion h)
  | .list _, .map _ => .isFalse (fun h => Value.noConfusion h)
  | .list _, .null => .isFalse (fun h => Value.noConfusion h)
  | .map _, .float _ => .isFalse (fun h => Value.noConfusion h)
  | .map _, .int _ => .isFalse (fun h => Value.noConfusion h)
  | .map _, .str _ => .isFalse (fun h => Value.noConfusion h)
  | .map _, .boolean _ => .isFalse (fun h => Value.noConfusion h)
  | .map _, .list _ => .isFalse (fun h => Value.noConfusion h)
  | .map _, .null => .isFalse (fun h => Value.noConfusion h)
  | .null, .float _ => .isFalse (fun h => Value.noConfusion h)
  | .null, .int _ => .isFalse (fun h => Value.noConfusion h)
  | .null, .str _ => .isFalse (fun h => Value.noConfusion h)
  | .null, .boolean _ => .isFalse (fun h => Value.noConfusion h)
  | .null, .list _ => .isFalse (fun h => Value.noConfusion h)
  | .null, .map _ => .isFalse (fun h => Value.noConfusion h)

def Field.decEq : (a b : Field) → Decidable (a = b)
  | .mk n1 v1, .mk n2 v2 =>
    if hn : n1 = n2 then
      match Value.decEq v1 v2 with
      | .isTrue hv => .isTrue (by rw [hn, hv])
      | .isFalse hv => .isFalse (by simp [hv])
    else .isFalse (by simp [hn])

def valueListDecEq : (a b : List Value) → Decidable (a = b)
  | [], [] => .isTrue rfl
  | [], _ :: _ => .isFalse (fun h => List.noConfusion h)
  | _ :: _, [] => .isFalse (fun h => List.noConfusion h)
  | x :: xs, y :: ys =>
    match Value.decEq x y, valueListDecEq xs ys with
    | .isTrue h1, .isTrue h2 => .isTrue (by rw [h1, h2])
    | .isFalse h1, _ => .isFalse (by simp [h1])
    | _, .isFalse h2 => .isFalse (by simp [h2])

def fieldListDecEq : (a b : List Field) → Decidable (a = b)
  | [], [] => .isTrue rfl
  | [], _ :: _ => .isFalse (fun h => List.noConfusion h)
  | _ :: _, [] => .isFalse (fun h => List.noConfusion h)
  | x :: xs, y :: ys =>
    match Field.decEq x y, fieldListDecEq xs ys with
    | .isTrue h1, .isTrue h2 => .isTrue (by rw [h1, h2])
    | .isFalse h1, _ => .isFalse (by simp [h1])
    | _, .isFalse h2 => .isFalse (by simp [h2])

end

instance : DecidableEq Value := Value.decEq

instance : DecidableEq Field := Field.decEq

/-- Embeds `Map.Get` (value/value.go): the lazily built index maps each name
to the field it saw last while scanning `Items` in order, so lookup is a
left fold in which a later field with the same name overwrites an earlier
one. -/
def Map.Get (items : List Field) (key : String) : Option Field :=
  items.foldl (fun acc f => if f.name = key then some f else acc) none

theorem Map.Get_fold_mem (key : String) (f : Field) :
    ∀ (items : List Field) (acc : Option Field),
      items.foldl (fun acc g => if g.name = key then some g else acc) acc = some f →
      f ∈ items ∨ acc = some f := by
  intro items
  induction items with
  | nil => intro acc h; simp only [List.foldl_nil] at h; exact Or.inr h
  | cons g rest ih =>
    intro acc h
    simp only [List.foldl_cons] at h
    rcases ih _ h with h' | h'
    · exact Or.inl (List.mem_cons_of_mem _ h')
    · by_cases hg : g.name = key
      · rw [if_pos hg] at h'
        exact Or.inl (by simp [Option.some.injEq] at h'; simp [h'])
      · rw [if_neg hg] at h'
        exact Or.inr h'

theorem Map.Get_mem {items : List Field} {key : String} {f : Field}
    (h : Map.Get items key = some f) : f ∈ items := by
  rcases Map.Get_fold_mem key f items none h with h' | h'
  · exact h'
  · exact absurd h' (by simp)

theorem sizeOf_lt_of_mem_values {v : Value} {items : List Value} (h : v ∈ items) :
    sizeOf v < sizeOf (Value.list items) := by
  have := List.sizeOf_lt_of_mem h
  cases items with
  | nil => simp at h
  | cons a l => simp only [Value.list.sizeOf_spec]; omega

theorem Field.sizeOf_value_lt (f : Field) : sizeOf f.value < sizeOf f := by
  cases f with
  | mk n v => simp only [Field.value, Field.mk.sizeOf_spec]; omega

theorem sizeOf_lt_of_mem_fields {f : Field} {items : List Field} (h : f ∈ items) :
    sizeOf f < sizeOf (Value.map items) := by
  have := List.sizeOf_lt_of_mem h
  simp only [Value.map.sizeOf_spec]; omega

theorem sizeOf_value_lt_of_mem_fields {f : Field} {items : List Field} (h : f ∈ items) :
    sizeOf f.value < sizeOf (Value.map items) :=
  lt_trans (Field.sizeOf_value_lt f) (sizeOf_lt_of_mem_fields h)

mutual

/-- Embeds `Value.HumanReadable` (value/value.go): the diagnostic rendering.
Null renders as `null`, strings quoted (the Go `%q` escaping of special
characters inside the string is not modelled; no embedded input relies on
it), lists as `[e1,e2,...]`, maps as `{k1=v1;k2=v2;...}` in stored order. -/
def Value.HumanReadable : Value → String
  | .float f => toString f
  | .int i => toString i
  | .str s => "\"" ++ s ++ "\""
  | .boolean b => if b then "true" else "false"
  | .list items => "[" ++ hrItems items ++ "]"
  | .map items => "\x7b" ++ hrFields items ++ "\x7d"
  | .null => "null"
termination_by v => sizeOf v
decreasing_by all_goals (simp_wf; try omega)

/-- Renders list items comma-separated (the `strings.Join(strs, ",")` of
`HumanReadable`). -/
def hrItems : List Value → String
  | [] => ""
  | [v] => Value.HumanReadable v
  | v :: rest => Value.HumanReadable v ++ "," ++ hrItems rest
termination_by l => sizeOf l
decreasing_by all_goals (simp_wf; try omega)

/-- Renders map entries `name=value` semicolon-separated (the
`strings.Join(strs, ";")` of `HumanReadable`). -/
def hrFields : List Field → String
  | [] => ""
  | [.mk n v] => n ++ "=" ++ Value.HumanReadable v
  | .mk n v :: rest => n ++ "=" ++ Value.HumanReadable v ++ ";" ++ hrFields rest
termination_by l => sizeOf l
decreasing_by all_goals (simp_wf; try omega)

end

/-- Embeds `fieldpath.PathElement`: the Go struct with four optional members,
of which a well-formed element populates exactly one.  The all-`none` zero
value is representable on purpose: the removing walker materialises it when
it ignores a path-element derivation error. -/
structure PathElement where
  fieldName : Option String := none
  key : Option (List Field) := none
  value : Option Value := none
  index : Option Int := none
  deriving DecidableEq

/-- The zero Go `fieldpath.PathElement` (all members nil). -/
def zeroPE : PathElement := {}

/-- A `PathElement` addressing a map/struct entry by field name. -/
def fieldNamePE (n : String) : PathElement := { fieldName := some n }

/-- A `PathElement` addressing a keyed associative-list element. -/
def keyPE (fs : List Field) : PathElement := { key := some fs }

/-- A `PathElement` addressing a set element by its whole value. -/
def valuePE (v : Value) : PathElement := { value := some v }

/-- A `PathElement` addressing an atomic-list element by position. -/
def indexPE (i : Int) : PathElement := { index := some i }

/-- Renders the key/value pairs of a `Key` path element, comma-separated. -/
def keyFieldsString : List Field → String
  | [] => ""
  | [f] => f.name ++ "=" ++ Value.HumanReadable f.value
  | f :: rest => f.name ++ "=" ++ Value.HumanReadable f.value ++ "," ++ keyFieldsString rest

/-- Modelled from the spec: the canonical string form of a path element
(`fieldpath.PathElement.String()` is not under src/).  Spec §6: field names
render bare, indices as `[n]`, keyed elements as `[k1=v1,k2=v2]` in declared
key order, set/value elements as `[value-literal]`.  Members are inspected
in the Go field order (FieldName, Key, Value, Index). -/
def PathElement.canonical (pe : PathElement) : String :=
  match pe.fieldName with
  | some n => n
  | none =>
    match pe.key with
    | some fs => "[" ++ keyFieldsString fs ++ "]"
    | none =>
      match pe.value with
      | some v => "[" ++ Value.HumanReadable v ++ "]"
      | none =>
        match pe.index with
        | some i => "[" ++ toString i ++ "]"
        | none => "invalid path element"

/-- A `fieldpath.Path`: the ordered sequence of path elements from the root. -/
abbrev Path := List PathElement

/-- Modelled from the spec: the removing walker's `fieldpath.Set` (not under
src/) is a finite set of paths; `MakePath pe` is the singleton path `[pe]`.
Membership and prefix narrowing below follow spec §4.5. -/
abbrev PathSet := List Path

/-- Modelled from the spec: `Set.Has` — exact membership of a path. -/
def PathSet.Has (R : PathSet) (p : Path) : Bool := decide (p ∈ R)

/-- Modelled from the spec: `Set.WithPrefix pe` — the suffixes of member
paths that start with `pe` and continue below it (strict descendants). -/
def PathSet.WithPrefix (R : PathSet) (pe : PathElement) : PathSet :=
  R.filterMap fun p =>
    match p with
    | [] => none
    | q :: rest => if q = pe ∧ rest ≠ [] then some rest else none

/-- Embeds `schema.Scalar` as used by typed/validate.go. -/
inductive Scalar where
  | numeric
  | string
  | boolean
  deriving DecidableEq

/-- Embeds `schema.ElementRelationship`: Atomic or Associative. -/
inductive ElementRelationship where
  | atomic
  | associative
  deriving DecidableEq

mutual

/-- Embeds `schema.Atom` for the validating walker (shape pinned by spec §3
and the dispatch in typed/validate.go): exactly one variant per atom. -/
inductive Atom where
  | scalar (t : Scalar)
  | struct (t : StructSchema)
  | list (t : SList)
  | map (t : MapSchema)
  | untyped

/-- Embeds `schema.Struct`: the ordered declared fields. -/
inductive StructSchema where
  | mk (fields : List StructField)

/-- Embeds `schema.StructField`: a declared name and its type reference. -/
inductive StructField where
  | mk (name : String) (type : TypeRef)

/-- Embeds `schema.List`: element type, element relationship and the
declared key field names. -/
inductive SList where
  | mk (elementType : TypeRef) (elementRelationship : ElementRelationship)
       (keys : List String)

/-- Embeds `schema.Map` as used by the validating walker: a homogeneous
element type. -/
inductive MapSchema where
  | mk (elementType : TypeRef)

/-- Embeds `schema.TypeRef`: either a named type or an inline atom. -/
inductive TypeRef where
  | namedType (n : String)
  | inline (a : Atom)

end

def StructSchema.fields : StructSchema → List StructField
  | .mk fs => fs

def StructField.name : StructField → String
  | .mk n _ => n

def StructField.type : StructField → TypeRef
  | .mk _ t => t

def SList.elementType : SList → TypeRef
  | .mk et _ _ => et

def SList.elementRelationship : SList → ElementRelationship
  | .mk _ r _ => r

def SList.keys : SList → List String
  | .mk _ _ ks => ks

def MapSchema.elementType : MapSchema → TypeRef
  | .mk et => et

@[simp] theorem structSchemaFieldsMk (fs : List StructField) :
    (StructSchema.mk fs).fields = fs := rfl

@[simp] theorem structFieldNameMk (n : String) (t : TypeRef) :
    (StructField.mk n t).name = n := rfl

@[simp] theorem structFieldTypeMk (n : String) (t : TypeRef) :
    (StructField.mk n t).type = t := rfl

@[simp] theorem sListElementTypeMk (et : TypeRef) (r : ElementRelationship)
    (ks : List String) : (SList.mk et r ks).elementType = et := rfl

@[simp] theorem sListElementRelationshipMk (et : TypeRef)
    (r : ElementRelationship) (ks : List String) :
    (SList.mk et r ks).elementRelationship = r := rfl

@[simp] theorem sListKeysMk (et : TypeRef) (r : ElementRelationship)
    (ks : List String) : (SList.mk et r ks).keys = ks := rfl

@[simp] theorem mapSchemaElementTypeMk (et : TypeRef) :
    (MapSchema.mk et).elementType = et := rfl

/-- Embeds `schema.TypeDef`: a named type definition. -/
structure TypeDef where
  name : String
  atom : Atom

/-- Embeds `schema.Schema`: the catalog of named type definitions. -/
structure Schema where
  types : List TypeDef

/-- Modelled from the spec (§4.3; `schema.Resolve` is not under src/):
inline atoms resolve to themselves, named types look up the catalog by
exact name, unresolved names fail. -/
def Schema.Resolve (s : Schema) (tr : TypeRef) : Option Atom :=
  match tr with
  | .namedType n => (s.types.find? (fun td => td.name == n)).map TypeDef.atom
  | .inline a => some a

/-- The name printed by the resolution-failure message (`*v.typeRef.NamedType`
in validate.go; resolution can only fail for a named reference). -/
def TypeRef.describe : TypeRef → String
  | .namedType n => n
  | .inline _ => ""

/-- Embeds `typed.ValidationError`. -/
structure ValidationError where
  path : Path
  errorMessage : String
  deriving DecidableEq

/-- The key-collection loop of `keyedAssociativeListItemToPathElement`
(typed/validate.go): for each declared key name in order, fetch the field
from the element; the first missing key aborts with the "omits key field"
error. -/
def collectKeyFields (m : List Field) : List String → Except String (List Field)
  | [] => .ok []
  | fieldName :: rest =>
    match Map.Get m fieldName with
    | some field =>
      match collectKeyFields m rest with
      | .ok fs => .ok (Field.mk fieldName field.value :: fs)
      | .error e => .error e
    | none =>
      .error ("associative list with keys has an element that omits key field "
              ++ fieldName)

/-- Embeds `keyedAssociativeListItemToPathElement` (typed/validate.go):
derives the `Key` path element of a keyed associative-list element. -/
def keyedAssociativeListItemToPathElement (list : SList) (index : Int)
    (child : Value) : Except String PathElement :=
  match child with
  | .null => .error "associative list with keys may not have a null element"
  | .map m =>
    match collectKeyFields m list.keys with
    | .ok fs => .ok (keyPE fs)
    | .error e => .error e
  | _ => .error "associative list with keys may not have non-map elements"

/-- Embeds `setItemToPathElement` (typed/validate.go): a set element must be
a scalar; its identity is its whole value. -/
def setItemToPathElement (list : SList) (index : Int) (child : Value) :
    Except String PathElement :=
  match child with
  | .map _ => .error "associative list without keys has an element that's a map type"
  | .list _ => .error "not supported: associative list with lists as elements"
  | .null => .error "associative list without keys has an element that's an explicit null"
  | c => .ok (valuePE c)

/-- Embeds `listItemToPathElement` (typed/validate.go): the shared
path-element derivation for a list element. -/
def listItemToPathElement (list : SList) (index : Int) (child : Value) :
    Except String PathElement :=
  if list.elementRelationship = .associative then
    if 0 < list.keys.length then
      keyedAssociativeListItemToPathElement list index child
    else
      setItemToPathElement list index child
  else
    .ok (indexPE index)

/-- Embeds `validation.doScalar` (typed/validate.go). -/
def doScalar (path : Path) (t : Scalar) (v : Value) : List ValidationError :=
  match t with
  | .numeric =>
    match v with
    | .float _ => []
    | .int _ => []
    | _ => [⟨path, "expected numeric (int or float), got " ++ Value.HumanReadable v⟩]
  | .string =>
    match v with
    | .str _ => []
    | _ => [⟨path, "expected string, got " ++ Value.HumanReadable v⟩]
  | .boolean =>
    match v with
    | .boolean _ => []
    | _ => [⟨path, "expected boolean, got " ++ Value.HumanReadable v⟩]

/-- The closed-struct check of `validation.doStruct`: every map entry whose
name is not among the declared field names is an unknown-field error. -/
def unknownFieldErrors (path : Path) (fields : List StructField)
    (m : List Field) : List ValidationError :=
  m.filterMap fun f =>
    if fields.any (fun sf => sf.name == f.name) then none
    else some ⟨path, "field " ++ f.name ++ " is not mentioned in the schema"⟩

mutual

/-- Embeds `validation.validate` (typed/validate.go): resolve the type
reference and dispatch on the resolved atom. -/
def validate (s : Schema) (path : Path) (tr : TypeRef) (v : Value) :
    List ValidationError :=
  match Schema.Resolve s tr with
  | none => [⟨path, "no type found matching: " ++ TypeRef.describe tr⟩]
  | some (.scalar t) => doScalar path t v
  | some (.struct t) => doStruct s path t v
  | some (.list t) => doList s path t v
  | some (.map t) => doMap s path t v
  | some .untyped => []
termination_by (sizeOf v, 1, 0)

/-- Embeds `validation.doStruct` (typed/validate.go): Null is a valid
struct; a map is validated field-by-field and then closed-world checked;
anything else is a type error. -/
def doStruct (s : Schema) (path : Path) (t : StructSchema) (v : Value) :
    List ValidationError :=
  match v with
  | .null => []
  | .map m => doStructFields s path m t.fields ++ unknownFieldErrors path t.fields m
  | _ => [⟨path, "expected struct, got " ++ Value.HumanReadable v⟩]
termination_by (sizeOf v, 0, 0)

/-- The declared-field loop of `validation.doStruct`: each declared field is
optional; a present field recurses with the declared type and the field-name
path element appended. -/
def doStructFields (s : Schema) (path : Path) (m : List Field) :
    List StructField → List ValidationError
  | [] => []
  | sf :: rest =>
    (match hget : Map.Get m sf.name with
     | none => []
     | some child =>
       have : sizeOf child.value < sizeOf m :=
         lt_trans (Field.sizeOf_value_lt child)
           (List.sizeOf_lt_of_mem (Map.Get_mem hget))
       validate s (path ++ [fieldNamePE sf.name]) sf.type child.value)
    ++ doStructFields s path m rest
termination_by fields => (sizeOf m, 0, fields.length)

/-- Embeds `validation.doList` (typed/validate.go): Null is a valid list; a
non-list is a type error (message has no actual-value rendering); elements
are processed by `doListItems`. -/
def doList (s : Schema) (path : Path) (t : SList) (v : Value) :
    List ValidationError :=
  match v with
  | .null => []
  | .list items => doListItems s path t [] 0 items
  | _ => [⟨path, "expected list"⟩]
termination_by (sizeOf v, 0, 0)

/-- The element loop of `validation.doList`: derive each element's path
element (a failure reports a localized error and skips the element), report
a duplicate when the canonical string was already observed, then recurse
into the element against the list's element type. -/
def doListItems (s : Schema) (path : Path) (t : SList) (seen : List String)
    (i : Int) : List Value → List ValidationError
  | [] => []
  | child :: rest =>
    match listItemToPathElement t i child with
    | .error e =>
      ⟨path, "element " ++ toString i ++ ": " ++ e⟩
        :: doListItems s path t seen (i + 1) rest
    | .ok pe =>
      (if pe.canonical ∈ seen
       then [⟨path, "duplicate entries for key " ++ pe.canonical⟩] else [])
      ++ validate s (path ++ [pe]) t.elementType child
      ++ doListItems s path t (pe.canonical :: seen) (i + 1) rest
termination_by items => (sizeOf items, 0, 0)

/-- Embeds `validation.doMap` (typed/validate.go): Null is a valid map; a
non-map is a type error (whose message text says "expected list"); every
entry recurses against the map's element type. -/
def doMap (s : Schema) (path : Path) (t : MapSchema) (v : Value) :
    List ValidationError :=
  match v with
  | .null => []
  | .map m => doMapItems s path t m
  | _ => [⟨path, "expected list, found " ++ Value.HumanReadable v⟩]
termination_by (sizeOf v, 0, 0)

/-- The entry loop of `validation.doMap`. -/
def doMapItems (s : Schema) (path : Path) (t : MapSchema) :
    List Field → List ValidationError
  | [] => []
  | .mk n v :: rest =>
    validate s (path ++ [fieldNamePE n]) t.elementType v
      ++ doMapItems s path t rest
termination_by items => (sizeOf items, 0, 0)

end

/-- Embeds `AssociativeListCandidateFieldNames` (schema-less guesser). -/
def AssociativeListCandidateFieldNames : List String := ["key", "id", "name"]

/-- The candidate-collection loop of `GuessBestListPathElement`: for each
candidate name in order, keep the element's field of that name when its
value is not Null, not a Map and not a List. -/
def guessKeysLoop (m : List Field) : List String → List Field
  | [] => []
  | n :: rest =>
    match Map.Get m n with
    | none => guessKeysLoop m rest
    | some f =>
      match f.value with
      | .null => guessKeysLoop m rest
      | .map _ => guessKeysLoop m rest
      | .list _ => guessKeysLoop m rest
      | _ => f :: guessKeysLoop m rest

/-- Embeds `GuessBestListPathElement` (schema-less best-effort derivation):
a non-map item is referenced by index; a map item by the collected candidate
key fields when at least one matched, else by index. -/
def GuessBestListPathElement (index : Int) (item : Value) : PathElement :=
  match item with
  | .map m =>
    let keys := guessKeysLoop m AssociativeListCandidateFieldNames
    if 0 < keys.length then keyPE keys else indexPE index
  | _ => indexPE index

/-- `true` iff the value is one of the four scalar variants. -/
def Value.isScalar : Value → Bool
  | .float _ => true
  | .int _ => true
  | .str _ => true
  | .boolean _ => true
  | _ => false

/-- The spec's own wording of the schema-less heuristic (§4.2, last bullet),
stated independently of the source so the two can be compared: collect every
candidate field among key, id, name (tried in that order) whose value is a
scalar — Null, Map and List values are rejected — and return a Key path
element of the collected fields if at least one matched, otherwise Index. -/
def guessBestListPathElementSpec (index : Int) (item : Value) : PathElement :=
  match item with
  | .map m =>
    let collected := AssociativeListCandidateFieldNames.filterMap fun n =>
      match Map.Get m n with
      | some f => if f.value.isScalar then some f else none
      | none => none
    if collected.isEmpty then indexPE index else keyPE collected
  | _ => indexPE index

mutual

/-- Embeds the removal-side `schema.Atom` (the removing walker's schema
package merges struct fields into Map): Scalar payloads are irrelevant to
the walker, which ignores scalars. -/
inductive RAtom where
  | scalar
  | list (t : RList)
  | map (t : RMap)
  | untyped

/-- Embeds the removal-side `schema.List`. -/
inductive RList where
  | mk (elementType : RTypeRef) (elementRelationship : ElementRelationship)
       (keys : List String)

/-- Embeds the removal-side `schema.Map`: declared struct fields plus an
optional default element type (`none` models the zero `TypeRef`, which the
walker's schema resolution rejects, making the recursion a no-op). -/
inductive RMap where
  | mk (fields : List RStructField) (elementType : Option RTypeRef)
       (elementRelationship : ElementRelationship)

/-- Embeds the removal-side `schema.StructField`. -/
inductive RStructField where
  | mk (name : String) (type : RTypeRef)

/-- Embeds the removal-side `schema.TypeRef`. -/
inductive RTypeRef where
  | namedType (n : String)
  | inline (a : RAtom)

end

def RList.elementType : RList → RTypeRef
  | .mk et _ _ => et

def RList.elementRelationship : RList → ElementRelationship
  | .mk _ r _ => r

def RList.keys : RList → List String
  | .mk _ _ ks => ks

def RMap.fields : RMap → List RStructField
  | .mk fs _ _ => fs

def RMap.elementType : RMap → Option RTypeRef
  | .mk _ et _ => et

def RMap.elementRelationship : RMap → ElementRelationship
  | .mk _ _ r => r

def RStructField.name : RStructField → String
  | .mk n _ => n

def RStructField.type : RStructField → RTypeRef
  | .mk _ t => t

@[simp] theorem rListElementTypeMk (et : RTypeRef) (r : ElementRelationship)
    (ks : List String) : (RList.mk et r ks).elementType = et := rfl

@[simp] theorem rListElementRelationshipMk (et : RTypeRef)
    (r : ElementRelationship) (ks : List String) :
    (RList.mk et r ks).elementRelationship = r := rfl

@[simp] theorem rListKeysMk (et : RTypeRef) (r : ElementRelationship)
    (ks : List String) : (RList.mk et r ks).keys = ks := rfl

@[simp] theorem rMapFieldsMk (fs : List RStructField)
    (et : Option RTypeRef) (r : ElementRelationship) :
    (RMap.mk fs et r).fields = fs := rfl

@[simp] theorem rMapElementTypeMk (fs : List RStructField)
    (et : Option RTypeRef) (r : ElementRelationship) :
    (RMap.mk fs et r).elementType = et := rfl

@[simp] theorem rMapElementRelationshipMk (fs : List RStructField)
    (et : Option RTypeRef) (r : ElementRelationship) :
    (RMap.mk fs et r).elementRelationship = r := rfl

@[simp] theorem rStructFieldNameMk (n : String) (t : RTypeRef) :
    (RStructField.mk n t).name = n := rfl

@[simp] theorem rStructFieldTypeMk (n : String) (t : RTypeRef) :
    (RStructField.mk n t).type = t := rfl

/-- A removal-side named type definition. -/
structure RTypeDef where
  name : String
  atom : RAtom

/-- The removal-side schema catalog. -/
structure RSchema where
  types : List RTypeDef

/-- Modelled from the spec (§4.3): the removal-side schema resolution. -/
def RSchema.resolve (s : RSchema) (tr : RTypeRef) : Option RAtom :=
  match tr with
  | .namedType n => (s.types.find? (fun td => td.name == n)).map RTypeDef.atom
  | .inline a => some a

/-- The removing walker's keyed-element derivation (same algorithm as
`keyedAssociativeListItemToPathElement`, over the removal-side list type). -/
def rKeyedItemToPathElement (t : RList) (index : Int) (child : Value) :
    Except String PathElement :=
  match child with
  | .null => .error "associative list with keys may not have a null element"
  | .map m =>
    match collectKeyFields m t.keys with
    | .ok fs => .ok (keyPE fs)
    | .error e => .error e
  | _ => .error "associative list with keys may not have non-map elements"

/-- The removing walker's set-element derivation (same algorithm as
`setItemToPathElement`). -/
def rSetItemToPathElement (t : RList) (index : Int) (child : Value) :
    Except String PathElement :=
  match child with
  | .map _ => .error "associative list without keys has an element that's a map type"
  | .list _ => .error "not supported: associative list with lists as elements"
  | .null => .error "associative list without keys has an element that's an explicit null"
  | c => .ok (valuePE c)

/-- The removing walker's copy of `listItemToPathElement`: the same shared
derivation algorithm (spec §4.2) over the removal-side schema list type. -/
def rListItemToPathElement (t : RList) (index : Int) (child : Value) :
    Except String PathElement :=
  if t.elementRelationship = .associative then
    if 0 < t.keys.length then rKeyedItemToPathElement t index child
    else rSetItemToPathElement t index child
  else
    .ok (indexPE index)

mutual

/-- Embeds `removeItemsWithSchema` plus `resolveSchema` dispatch: the Go
code mutates `*w.value` in place; the embedding returns the value the call
leaves there.  Scalars, untyped atoms and unresolvable references leave the
value untouched (the walker's doScalar/doLeaf are no-ops and resolution
failures are silently inert). -/
def removeItemsWithSchema (s : RSchema) (tr : RTypeRef) (R : PathSet)
    (v : Value) : Value :=
  match RSchema.resolve s tr with
  | some (.list t) => rDoList s t R v
  | some (.map t) => rDoMap s t R v
  | _ => v
termination_by (sizeOf v, 1, 0)

/-- Embeds `removingWalker.doList`: null, empty or atomic lists are left
untouched; otherwise elements are filtered/rewritten and an empty result is
stored as Null. -/
def rDoList (s : RSchema) (t : RList) (R : PathSet) (v : Value) : Value :=
  match v with
  | .list items =>
    if items.length = 0 ∨ t.elementRelationship = .atomic then v
    else
      let newItems := rDoListItems s t R 0 items
      if newItems.length = 0 then .null else .list newItems
  | _ => v
termination_by (sizeOf v, 0, 0)

/-- The element loop of `removingWalker.doList`: derive the element's path
element ignoring errors (the zero path element results from a failed
derivation), drop the element on an exact match, otherwise rewrite it with
the prefix-narrowed subset when that subset is non-empty. -/
def rDoListItems (s : RSchema) (t : RList) (R : PathSet) (i : Int) :
    List Value → List Value
  | [] => []
  | item :: rest =>
    let pe := match rListItemToPathElement t i item with
      | .ok pe => pe
      | .error _ => zeroPE
    if PathSet.Has R [pe] then rDoListItems s t R (i + 1) rest
    else
      let subset := PathSet.WithPrefix R pe
      let item' := if subset.isEmpty then item
        else removeItemsWithSchema s t.elementType subset item
      item' :: rDoListItems s t R (i + 1) rest
termination_by items => (sizeOf items, 0, 0)

/-- Embeds `removingWalker.doMap`: null, empty or atomic maps are left
untouched; otherwise entries are filtered/rewritten and an empty result is
stored as Null. -/
def rDoMap (s : RSchema) (t : RMap) (R : PathSet) (v : Value) : Value :=
  match v with
  | .map items =>
    if items.length = 0 ∨ t.elementRelationship = .atomic then v
    else
      let newItems := rDoMapItems s t R items
      if newItems.length = 0 then .null else .map newItems
  | _ => v
termination_by (sizeOf v, 0, 0)

/-- The entry loop of `removingWalker.doMap`.  A field declared among the
struct fields recurses with its declared type and is never dropped by exact
match (the `Has` check sits in the undeclared branch); an undeclared field
is dropped on an exact match and otherwise recurses with the map's default
element type when one applies.  `fieldTypes` is a Go map filled in
declaration order, so a duplicate declared name resolves to the last
declaration. -/
def rDoMapItems (s : RSchema) (t : RMap) (R : PathSet) :
    List Field → List Field
  | [] => []
  | .mk key val :: rest =>
    let pe := fieldNamePE key
    match t.fields.reverse.find? (fun sf => sf.name == key) with
    | some sf =>
      let subset := PathSet.WithPrefix R pe
      let val' := if subset.isEmpty then val
        else removeItemsWithSchema s sf.type subset val
      Field.mk key val' :: rDoMapItems s t R rest
    | none =>
      if PathSet.Has R [pe] then rDoMapItems s t R rest
      else
        let val' := match t.elementType with
          | some et =>
            let subset := PathSet.WithPrefix R pe
            if subset.isEmpty then val
            else removeItemsWithSchema s et subset val
          | none => val
        Field.mk key val' :: rDoMapItems s t R rest
termination_by items => (sizeOf items, 0, 0)

end

/-- The entries of a map value (empty for every other variant). -/
def Value.mapEntries : Value → List Field
  | .map m => m
  | _ => []

/-- Embeds `DefaultVersion` (fieldpath/strings/table.go). -/
def DefaultVersion : Int := 1

/-- Embeds `GetTable` (fieldpath/strings/table.go).  The concrete version
strings v0, v1 live in a file that is not under src/, so the built tables
are a parameter.  The guard is the source's `i < 0 || i > len(stringTables)`;
when it passes but the index is still out of range, the Go slice access
panics, modelled as `none`. -/
def GetTable (stringTables : List (List String)) (i : Int) :
    Option (Except String (List String)) :=
  if i < 0 ∨ (stringTables.length : Int) < i then
    some (.error ("unable to lookup string table version " ++ toString i))
  else if h : i.toNat < stringTables.length then
    some (.ok (stringTables.get ⟨i.toNat, h⟩))
  else
    none

/-- The reverse table `init` builds for one version: `m[s[i]] = i` over the
table in order (a duplicate string keeps the last index). -/
def reverseTable (tbl : List String) : List (String × Nat) :=
  tbl.enum.map fun p => (p.2, p.1)

/-- Embeds `GetReverseTable` (fieldpath/strings/table.go), with the same
off-by-one guard as `GetTable`. -/
def GetReverseTable (stringTables : List (List String)) (i : Int) :
    Option (Except String (List (String × Nat))) :=
  let reverseTables := stringTables.map reverseTable
  if i < 0 ∨ (reverseTables.length : Int) < i then
    some (.error ("unable to lookup reverse string table version " ++ toString i))
  else if h : i.toNat < reverseTables.length then
    some (.ok (reverseTables.get ⟨i.toNat, h⟩))
  else
    none

/-! ## Claim theorems -/

theorem guessKeysLoop_eq_filterMap (m : List Field) (names : List String) :
    guessKeysLoop m names = names.filterMap (fun n =>
      match Map.Get m n with
      | some f => if f.value.isScalar then some f else none
      | none => none) := by
  induction names with
  | nil => simp [guessKeysLoop]
  | cons n rest ih =>
    rw [guessKeysLoop, List.filterMap_cons]
    cases hg : Map.Get m n with
    | none => simpa [hg] using ih
    | some f =>
      cases hv : f.value with
      | float x => simp [hg, hv, ih, Value.isScalar]
      | int x => simp [hg, hv, ih, Value.isScalar]
      | str x => simp [hg, hv, ih, Value.isScalar]
      | boolean x => simp [hg, hv, ih, Value.isScalar]
      | list xs => simp [hg, hv, ih, Value.isScalar]
      | map xs => simp [hg, hv, ih, Value.isScalar]
      | null => simp [hg, hv, ih, Value.isScalar]

/-- C8: `GuessBestListPathElement` returns Index(i) for every non-Map
element; for a Map element it collects every candidate field among key, id,
name (in that order) whose value is a scalar (Null, Map and List values are
rejected) and returns a Key path element of the collected fields when at
least one matched, otherwise Index(i) — stated as equality with the spec's
own wording `guessBestListPathElementSpec`. -/
theorem guessBest_matches_spec (index : Int) (item : Value) :
    GuessBestListPathElement index item = guessBestListPathElementSpec index item := by
  cases item with
  | map m =>
    rw [GuessBestListPathElement, guessBestListPathElementSpec,
        guessKeysLoop_eq_filterMap]
    cases hL : (AssociativeListCandidateFieldNames.filterMap fun n =>
        match Map.Get m n with
        | some f => if f.value.isScalar then some f else none
        | none => none) with
    | nil => simp [hL]
    | cons a l => simp [hL]
  | float f => rfl
  | int i => rfl
  | str s => rfl
  | boolean b => rfl
  | list items => rfl
  | null => rfl

/-- C7: the bounds guard of `GetTable`/`GetReverseTable` is `i < 0 || i >
len(tables)`, so the out-of-range index `i = len(tables)` slips through and
the subsequent slice access panics (modelled `none`) instead of returning
the NotFound error the contract requires.  With the two shipped versions
(v0, v1), `GetTable(2)` panics. -/
theorem getTable_guard_off_by_one (t0 t1 : List String) :
    GetTable [t0, t1] 2 = none ∧ GetReverseTable [t0, t1] 2 = none := by
  constructor
  · simp [GetTable]
  · simp [GetReverseTable]

/-- The field value `keyedAssociativeListItemToPathElement` reads for a key
field name (the element is known to contain the field when this is used). -/
def keyVal (m : List Field) (k : String) : Value :=
  match Map.Get m k with
  | some f => f.value
  | none => Value.null

theorem collectKeyFields_ok (m : List Field) (ks : List String)
    (h : ∀ k ∈ ks, (Map.Get m k).isSome) :
    collectKeyFields m ks = .ok (ks.map fun k => Field.mk k (keyVal m k)) := by
  induction ks with
  | nil => simp [collectKeyFields]
  | cons k rest ih =>
    have hk := h k (by simp)
    rw [collectKeyFields]
    cases hg : Map.Get m k with
    | none => rw [hg] at hk; simp at hk
    | some f =>
      rw [ih (fun k' hk' => h k' (by simp [hk']))]
      simp [keyVal, hg]

/-- C1: for an associative list with a non-empty declared key list, an
element that is a (non-null) map containing every declared key field derives
the Key path element of the (key name, field value) pairs in the
schema-declared key order; consequently two such elements whose key-field
values agree derive the identical Key path element regardless of their
internal field order and of their list positions. -/
theorem keyedList_key_order_fixed_by_schema (t : SList) (i j : Int)
    (m1 m2 : List Field)
    (hrel : t.elementRelationship = .associative)
    (hkeys : t.keys ≠ [])
    (hall : ∀ k ∈ t.keys, (Map.Get m1 k).isSome)
    (heq : ∀ k ∈ t.keys,
      (Map.Get m1 k).map Field.value = (Map.Get m2 k).map Field.value) :
    listItemToPathElement t i (.map m1)
        = .ok (keyPE (t.keys.map fun k => Field.mk k (keyVal m1 k)))
      ∧ listItemToPathElement t i (.map m1) = listItemToPathElement t j (.map m2) := by
  have hall2 : ∀ k ∈ t.keys, (Map.Get m2 k).isSome := by
    intro k hk
    have h1 := hall k hk
    have h2 := heq k hk
    cases hg1 : Map.Get m1 k with
    | none => rw [hg1] at h1; simp at h1
    | some f1 =>
      rw [hg1] at h2
      cases hg2 : Map.Get m2 k with
      | none => rw [hg2] at h2; simp at h2
      | some f2 => simp
  have hkv : ∀ k ∈ t.keys, keyVal m1 k = keyVal m2 k := by
    intro k hk
    have h2 := heq k hk
    unfold keyVal
    cases hg1 : Map.Get m1 k with
    | none => have := hall k hk; rw [hg1] at this; simp at this
    | some f1 =>
      cases hg2 : Map.Get m2 k with
      | none => have := hall2 k hk; rw [hg2] at this; simp at this
      | some f2 =>
        rw [hg1, hg2] at h2
        simpa using h2
  have hlen : 0 < t.keys.length := List.length_pos.mpr hkeys
  have hone : listItemToPathElement t i (.map m1)
      = .ok (keyPE (t.keys.map fun k => Field.mk k (keyVal m1 k))) := by
    rw [listItemToPathElement, if_pos hrel, if_pos hlen,
        keyedAssociativeListItemToPathElement, collectKeyFields_ok m1 t.keys hall]
  refine ⟨hone, ?_⟩
  have htwo : listItemToPathElement t j (.map m2)
      = .ok (keyPE (t.keys.map fun k => Field.mk k (keyVal m2 k))) := by
    rw [listItemToPathElement, if_pos hrel, if_pos hlen,
        keyedAssociativeListItemToPathElement, collectKeyFields_ok m2 t.keys hall2]
  rw [hone, htwo]
  have : (t.keys.map fun k => Field.mk k (keyVal m1 k))
      = t.keys.map fun k => Field.mk k (keyVal m2 k) :=
    List.map_congr_left fun k hk => by rw [hkv k hk]
  rw [this]

/-- Witness for C1: the elements `{extra:1, id:"a"}` and `{id:"a", extra:2}`
(different internal field orders) both derive the Key path element
`[id="a"]` under `Keys = [id]`. -/
theorem keyedList_key_order_fixed_by_schema_witness :
    ((SList.mk (.inline .untyped) .associative ["id"]).elementRelationship
        = .associative)
    ∧ ((SList.mk (.inline .untyped) .associative ["id"]).keys ≠ [])
    ∧ listItemToPathElement (SList.mk (.inline .untyped) .associative ["id"]) 0
        (.map [Field.mk "extra" (.int 1), Field.mk "id" (.str "a")])
      = .ok (keyPE [Field.mk "id" (.str "a")])
    ∧ listItemToPathElement (SList.mk (.inline .untyped) .associative ["id"]) 0
        (.map [Field.mk "extra" (.int 1), Field.mk "id" (.str "a")])
      = listItemToPathElement (SList.mk (.inline .untyped) .associative ["id"]) 7
        (.map [Field.mk "id" (.str "a"), Field.mk "extra" (.int 2)]) := by
  have h := keyedList_key_order_fixed_by_schema
    (SList.mk (.inline .untyped) .associative ["id"]) 0 7
    [Field.mk "extra" (.int 1), Field.mk "id" (.str "a")]
    [Field.mk "id" (.str "a"), Field.mk "extra" (.int 2)]
    rfl (by simp)
    (by intro k hk; simp at hk; simp [hk, Map.Get])
    (by intro k hk; simp at hk; simp [hk, Map.Get])
  refine ⟨rfl, by simp, ?_, h.2⟩
  have h1 := h.1
  simpa [keyVal, Map.Get] using h1

/-- C4: after removal on a non-empty non-atomic list (resp. map), if no
elements (resp. entries) survive the element loop, the container value is
stored as Null, not as an empty sequence or an empty map. -/
theorem removal_prunes_empty_container_to_null (s : RSchema) (tl : RList)
    (tm : RMap) (R : PathSet) (items : List Value) (fields : List Field)
    (hl1 : items ≠ []) (hl2 : tl.elementRelationship ≠ .atomic)
    (hl3 : rDoListItems s tl R 0 items = [])
    (hm1 : fields ≠ []) (hm2 : tm.elementRelationship ≠ .atomic)
    (hm3 : rDoMapItems s tm R fields = []) :
    rDoList s tl R (.list items) = .null ∧ rDoMap s tm R (.map fields) = .null := by
  constructor
  · have hcond : ¬(items.length = 0 ∨ tl.elementRelationship = .atomic) := by
      rw [not_or]
      exact ⟨by simpa using hl1, hl2⟩
    rw [rDoList, if_neg hcond, hl3]
    simp
  · have hcond : ¬(fields.length = 0 ∨ tm.elementRelationship = .atomic) := by
      rw [not_or]
      exact ⟨by simpa using hm1, hm2⟩
    rw [rDoMap, if_neg hcond, hm3]
    simp

/-- Witness for C4: removing the only element of the set-list `["a"]` and
the sole remaining field of the map `{a:1}` collapses both containers to
Null. -/
theorem removal_prunes_empty_container_to_null_witness :
    rDoList (RSchema.mk []) (RList.mk (.inline .untyped) .associative [])
        [[valuePE (.str "a")], [fieldNamePE "a"]] (.list [.str "a"]) = .null
    ∧ rDoMap (RSchema.mk []) (RMap.mk [] none .associative)
        [[valuePE (.str "a")], [fieldNamePE "a"]] (.map [Field.mk "a" (.int 1)])
      = .null := by
  exact removal_prunes_empty_container_to_null
    (RSchema.mk []) (RList.mk (.inline .untyped) .associative [])
    (RMap.mk [] none .associative) [[valuePE (.str "a")], [fieldNamePE "a"]]
    [.str "a"] [Field.mk "a" (.int 1)]
    (by simp) (by simp)
    (by simp [rDoListItems, rListItemToPathElement, rSetItemToPathElement,
              PathSet.Has, valuePE])
    (by simp) (by simp)
    (by simp [rDoMapItems, PathSet.Has, fieldNamePE])

theorem rDoListItems_empty_set (s : RSchema) (t : RList) :
    ∀ (items : List Value) (i : Int), rDoListItems s t [] i items = items := by
  intro items
  induction items with
  | nil => intro i; rw [rDoListItems]
  | cons item rest ih =>
    intro i
    rw [rDoListItems]
    simp [PathSet.Has, PathSet.WithPrefix, ih]

theorem rDoMapItems_empty_set (s : RSchema) (t : RMap) :
    ∀ (fields : List Field), rDoMapItems s t [] fields = fields := by
  intro fields
  induction fields with
  | nil => rw [rDoMapItems]
  | cons f rest ih =>
    cases f with
    | mk key val =>
      rw [rDoMapItems]
      cases hf : t.fields.reverse.find? (fun sf => sf.name == key) with
      | some sf => simp [PathSet.WithPrefix, ih]
      | none =>
        cases het : t.elementType with
        | some et => simp [PathSet.Has, PathSet.WithPrefix, ih]
        | none => simp [PathSet.Has, ih]

theorem rDoList_not_list (s : RSchema) (t : RList) (R : PathSet) (v : Value)
    (h : ∀ items, v ≠ .list items) : rDoList s t R v = v := by
  rw [rDoList.eq_def]
  cases v with
  | list items => exact absurd rfl (h items)
  | float f => rfl
  | int i => rfl
  | str x => rfl
  | boolean b => rfl
  | map m => rfl
  | null => rfl

theorem rDoMap_not_map (s : RSchema) (t : RMap) (R : PathSet) (v : Value)
    (h : ∀ fields, v ≠ .map fields) : rDoMap s t R v = v := by
  rw [rDoMap.eq_def]
  cases v with
  | map fields => exact absurd rfl (h fields)
  | float f => rfl
  | int i => rfl
  | str x => rfl
  | boolean b => rfl
  | list items => rfl
  | null => rfl

theorem rDoList_list (s : RSchema) (t : RList) (R : PathSet)
    (items : List Value) :
    rDoList s t R (.list items)
      = if items.length = 0 ∨ t.elementRelationship = .atomic then .list items
        else if (rDoListItems s t R 0 items).length = 0 then .null
        else .list (rDoListItems s t R 0 items) := by
  rw [rDoList.eq_def]

theorem rDoMap_map (s : RSchema) (t : RMap) (R : PathSet)
    (fields : List Field) :
    rDoMap s t R (.map fields)
      = if fields.length = 0 ∨ t.elementRelationship = .atomic then .map fields
        else if (rDoMapItems s t R fields).length = 0 then .null
        else .map (rDoMapItems s t R fields) := by
  rw [rDoMap.eq_def]

/-- C9: removing an empty path set is the identity, for every value, schema
and type reference. -/
theorem remove_empty_set_is_identity (s : RSchema) (tr : RTypeRef) (v : Value) :
    removeItemsWithSchema s tr [] v = v := by
  rw [removeItemsWithSchema.eq_def]
  cases hres : RSchema.resolve s tr with
  | none => rfl
  | some a =>
    cases a with
    | scalar => rfl
    | untyped => rfl
    | list t =>
      cases v with
      | list items =>
        dsimp only
        rw [rDoList_list]
        by_cases h : items.length = 0 ∨ t.elementRelationship = .atomic
        · rw [if_pos h]
        · rw [if_neg h, rDoListItems_empty_set]
          have hne : ¬items.length = 0 := fun hh => h (Or.inl hh)
          simp [hne]
      | float f => exact rDoList_not_list _ _ _ _ (by intro _ hh; cases hh)
      | int i => exact rDoList_not_list _ _ _ _ (by intro _ hh; cases hh)
      | str x => exact rDoList_not_list _ _ _ _ (by intro _ hh; cases hh)
      | boolean b => exact rDoList_not_list _ _ _ _ (by intro _ hh; cases hh)
      | map m => exact rDoList_not_list _ _ _ _ (by intro _ hh; cases hh)
      | null => exact rDoList_not_list _ _ _ _ (by intro _ hh; cases hh)
    | map t =>
      cases v with
      | map fields =>
        dsimp only
        rw [rDoMap_map]
        by_cases h : fields.length = 0 ∨ t.elementRelationship = .atomic
        · rw [if_pos h]
        · rw [if_neg h, rDoMapItems_empty_set]
          have hne : ¬fields.length = 0 := fun hh => h (Or.inl hh)
          simp [hne]
      | float f => exact rDoMap_not_map _ _ _ _ (by intro _ hh; cases hh)
      | int i => exact rDoMap_not_map _ _ _ _ (by intro _ hh; cases hh)
      | str x => exact rDoMap_not_map _ _ _ _ (by intro _ hh; cases hh)
      | boolean b => exact rDoMap_not_map _ _ _ _ (by intro _ hh; cases hh)
      | list items => exact rDoMap_not_map _ _ _ _ (by intro _ hh; cases hh)
      | null => exact rDoMap_not_map _ _ _ _ (by intro _ hh; cases hh)

/-- The path element the removing walker's loop derives for a list element
(error ignored: a failed derivation leaves the zero path element); for an
associative list it does not depend on the element's index. -/
def rPathElementOf (t : RList) (item : Value) : PathElement :=
  match rListItemToPathElement t 0 item with
  | .ok pe => pe
  | .error _ => zeroPE

theorem rListItemToPathElement_index_free (t : RList)
    (hrel : t.elementRelationship = .associative) (i j : Int) (child : Value) :
    rListItemToPathElement t i child = rListItemToPathElement t j child := by
  rw [rListItemToPathElement, rListItemToPathElement, if_pos hrel, if_pos hrel]
  by_cases hk : 0 < t.keys.length
  · rw [if_pos hk, if_pos hk]
    exact rfl
  · rw [if_neg hk, if_neg hk]
    exact rfl

/-- C10: for an associative (non-atomic) list, the removing walker's element
loop keeps exactly the elements whose derived path element's singleton path
is not in the removal set, rewriting each survivor with its prefix-narrowed
subset: the keep/drop decision depends only on the element's derived
identity, never on its position, so when several elements derive the same
path element and that path is in the removal set, every one of them is
removed. -/
theorem rDoList_removes_by_identity (s : RSchema) (t : RList) (R : PathSet)
    (items : List Value) (hrel : t.elementRelationship = .associative) :
    rDoListItems s t R 0 items
      = (items.filter fun it => !(PathSet.Has R [rPathElementOf t it])).map
          fun it =>
            if (PathSet.WithPrefix R (rPathElementOf t it)).isEmpty then it
            else removeItemsWithSchema s t.elementType
              (PathSet.WithPrefix R (rPathElementOf t it)) it := by
  suffices H : ∀ (items : List Value) (i : Int),
      rDoListItems s t R i items
        = (items.filter fun it => !(PathSet.Has R [rPathElementOf t it])).map
            fun it =>
              if (PathSet.WithPrefix R (rPathElementOf t it)).isEmpty then it
              else removeItemsWithSchema s t.elementType
                (PathSet.WithPrefix R (rPathElementOf t it)) it by
    exact H items 0
  intro items
  induction items with
  | nil => intro i; rw [rDoListItems]; rfl
  | cons item rest ih =>
    intro i
    rw [rDoListItems]
    have hpe : (match rListItemToPathElement t i item with
        | .ok pe => pe
        | .error _ => zeroPE) = rPathElementOf t item := by
      rw [rPathElementOf, rListItemToPathElement_index_free t hrel i 0]
    by_cases hHas : PathSet.Has R [rPathElementOf t item] = true
    · simp [hpe, hHas, ih]
    · have hHas' : PathSet.Has R [rPathElementOf t item] = false :=
        Bool.eq_false_iff.mpr hHas
      simp [hpe, hHas', ih]

theorem doListItems_dup_of_seen (s : Schema) (path : Path) (t : SList) :
    ∀ (items : List Value) (seen : List String) (i0 : Int) (n : Nat)
      (hn : n < items.length) (pe : PathElement),
      listItemToPathElement t (i0 + n) (items.get ⟨n, hn⟩) = .ok pe →
      pe.canonical ∈ seen →
      (⟨path, "duplicate entries for key " ++ pe.canonical⟩ : ValidationError)
        ∈ doListItems s path t seen i0 items := by
  intro items
  induction items with
  | nil => intro seen i0 n hn; simp at hn
  | cons child rest ih =>
    intro seen i0 n hn pe hpe hseen
    cases n with
    | zero =>
      have hpe' : listItemToPathElement t i0 child = .ok pe := by
        simpa using hpe
      rw [doListItems, hpe']
      simp [hseen]
    | succ m =>
      have hm : m < rest.length := by simpa using hn
      have hpe' : listItemToPathElement t ((i0 + 1) + m) (rest.get ⟨m, hm⟩)
          = .ok pe := by
        have harith : i0 + ((m + 1 : Nat) : Int) = (i0 + 1) + m := by
          push_cast; ring
        rw [← harith]
        simpa using hpe
      rw [doListItems]
      cases hd : listItemToPathElement t i0 child with
      | error e =>
        exact List.mem_cons_of_mem _ (ih seen (i0 + 1) m hm pe hpe' hseen)
      | ok pe0 =>
        exact List.mem_append_right _
          (ih (pe0.canonical :: seen) (i0 + 1) m hm pe hpe'
            (List.mem_cons_of_mem _ hseen))

theorem doListItems_dup_pair (s : Schema) (path : Path) (t : SList) :
    ∀ (items : List Value) (seen : List String) (i0 : Int) (a b : Nat)
      (ha : a < items.length) (hb : b < items.length), a < b →
      ∀ (pea peb : PathElement),
      listItemToPathElement t (i0 + a) (items.get ⟨a, ha⟩) = .ok pea →
      listItemToPathElement t (i0 + b) (items.get ⟨b, hb⟩) = .ok peb →
      pea.canonical = peb.canonical →
      (⟨path, "duplicate entries for key " ++ peb.canonical⟩ : ValidationError)
        ∈ doListItems s path t seen i0 items := by
  intro items
  induction items with
  | nil => intro seen i0 a b ha; simp at ha
  | cons child rest ih =>
    intro seen i0 a b ha hb hab pea peb hpa hpb hcanon
    cases a with
    | zero =>
      cases b with
      | zero => exact absurd hab (lt_irrefl 0)
      | succ m =>
        have hpa' : listItemToPathElement t i0 child = .ok pea := by
          simpa using hpa
        have hm : m < rest.length := by simpa using hb
        have hpb' : listItemToPathElement t ((i0 + 1) + m) (rest.get ⟨m, hm⟩)
            = .ok peb := by
          have harith : i0 + ((m + 1 : Nat) : Int) = (i0 + 1) + m := by
            push_cast; ring
          rw [← harith]
          simpa using hpb
        rw [doListItems, hpa']
        exact List.mem_append_right _
          (doListItems_dup_of_seen s path t rest (pea.canonical :: seen)
            (i0 + 1) m hm peb hpb'
            (by rw [← hcanon]; exact List.mem_cons_self _ _))
    | succ a' =>
      cases b with
      | zero => exact absurd hab (by omega)
      | succ m =>
        have ha' : a' < rest.length := by simpa using ha
        have hm : m < rest.length := by simpa using hb
        have hab' : a' < m := by omega
        have hpa' : listItemToPathElement t ((i0 + 1) + a') (rest.get ⟨a', ha'⟩)
            = .ok pea := by
          have harith : i0 + ((a' + 1 : Nat) : Int) = (i0 + 1) + a' := by
            push_cast; ring
          rw [← harith]
          simpa using hpa
        have hpb' : listItemToPathElement t ((i0 + 1) + m) (rest.get ⟨m, hm⟩)
            = .ok peb := by
          have harith : i0 + ((m + 1 : Nat) : Int) = (i0 + 1) + m := by
            push_cast; ring
          rw [← harith]
          simpa using hpb
        rw [doListItems]
        cases hd : listItemToPathElement t i0 child with
        | error e =>
          exact List.mem_cons_of_mem _
            (ih seen (i0 + 1) a' m ha' hm hab' pea peb hpa' hpb' hcanon)
        | ok pe0 =>
          exact List.mem_append_right _
            (ih (pe0.canonical :: seen) (i0 + 1) a' m ha' hm hab'
              pea peb hpa' hpb' hcanon)

/-- C2: while validating a list value, whenever two elements at distinct
positions derive path elements with the same canonical string form, the
walker reports a "duplicate entries for key" error when it reaches the
later element; the statement covers keyed associative lists, sets and
atomic lists alike (for atomic lists the hypothesis is vacuous since
indices differ). -/
theorem doList_reports_duplicate_canonical (s : Schema) (path : Path)
    (t : SList) (items : List Value) (a b : Nat) (pea peb : PathElement)
    (ha : a < items.length) (hb : b < items.length) (hab : a < b)
    (hpa : listItemToPathElement t a (items.get ⟨a, ha⟩) = .ok pea)
    (hpb : listItemToPathElement t b (items.get ⟨b, hb⟩) = .ok peb)
    (hcanon : pea.canonical = peb.canonical) :
    (⟨path, "duplicate entries for key " ++ peb.canonical⟩ : ValidationError)
      ∈ doList s path t (.list items) := by
  have hgoal := doListItems_dup_pair s path t items [] 0 a b ha hb hab pea peb
    (by simpa using hpa) (by simpa using hpb) hcanon
  rw [doList.eq_def]
  exact hgoal

/-- Witness for C2: in the set `["a","b","a"]` the elements at positions 0
and 2 both derive the path element `[value "a"]`, and validation reports the
duplicate-entries error. -/
theorem doList_reports_duplicate_canonical_witness :
    (0 : Nat) < 3 ∧ (2 : Nat) < 3 ∧ (0 : Nat) < 2
    ∧ listItemToPathElement (SList.mk (.inline .untyped) .associative []) 0
        (.str "a") = .ok (valuePE (.str "a"))
    ∧ (valuePE (.str "a")).canonical = (valuePE (.str "a")).canonical
    ∧ (⟨[], "duplicate entries for key " ++ (valuePE (.str "a")).canonical⟩
        : ValidationError)
      ∈ doList (Schema.mk []) [] (SList.mk (.inline .untyped) .associative [])
        (.list [.str "a", .str "b", .str "a"]) := by
  refine ⟨by decide, by decide, by decide, rfl, rfl, ?_⟩
  exact doList_reports_duplicate_canonical (Schema.mk []) []
    (SList.mk (.inline .untyped) .associative [])
    [.str "a", .str "b", .str "a"] 0 2 (valuePE (.str "a")) (valuePE (.str "a"))
    (by decide) (by decide) (by decide) rfl rfl rfl

/-- Witness for C10: with set semantics and removal set `{[value "a"]}`,
both occurrences of `"a"` in `["a","b","a"]` are removed. -/
theorem rDoList_removes_by_identity_witness :
    ((RList.mk (.inline .untyped) .associative []).elementRelationship
      = .associative)
    ∧ rDoListItems (RSchema.mk []) (RList.mk (.inline .untyped) .associative [])
        [[valuePE (.str "a")]] 0 [.str "a", .str "b", .str "a"]
      = ([.str "a", .str "b", .str "a"].filter fun it =>
          !(PathSet.Has [[valuePE (.str "a")]]
            [rPathElementOf (RList.mk (.inline .untyped) .associative []) it])).map
          fun it =>
            if (PathSet.WithPrefix [[valuePE (.str "a")]]
                (rPathElementOf (RList.mk (.inline .untyped) .associative []) it)).isEmpty
            then it
            else removeItemsWithSchema (RSchema.mk []) (.inline .untyped)
              (PathSet.WithPrefix [[valuePE (.str "a")]]
                (rPathElementOf (RList.mk (.inline .untyped) .associative []) it)) it :=
  ⟨rfl, rDoList_removes_by_identity (RSchema.mk [])
    (RList.mk (.inline .untyped) .associative []) [[valuePE (.str "a")]]
    [.str "a", .str "b", .str "a"] rfl⟩

/-- Counterexample for C3: the exact path `[a]` is in the removal set and
field `a` is declared in the struct schema, yet `removeItemsWithSchema`
leaves `{a:1}` unchanged — the entry is not dropped (the claim requires it
to be dropped regardless of declaredness, which would collapse this map to
Null per the C4 pruning rule). -/
theorem rDoMap_declared_field_not_dropped :
    removeItemsWithSchema (RSchema.mk [])
      (.inline (.map (RMap.mk [RStructField.mk "a" (.inline .untyped)] none
        .associative)))
      [[fieldNamePE "a"]] (.map [Field.mk "a" (.int 1)])
      = .map [Field.mk "a" (.int 1)] := by
  rw [removeItemsWithSchema.eq_def]
  simp only [RSchema.resolve]
  rw [rDoMap_map]
  simp [rDoMapItems, PathSet.WithPrefix, fieldNamePE]

theorem rDoMapItems_drops_undeclared (s : RSchema) (t : RMap) (R : PathSet)
    (name : String)
    (hfind : t.fields.reverse.find? (fun sf => sf.name == name) = none)
    (hhas : PathSet.Has R [fieldNamePE name] = true) :
    ∀ (items : List Field) (g : Field),
      g ∈ rDoMapItems s t R items → g.name ≠ name := by
  intro items
  induction items with
  | nil => intro g hg; rw [rDoMapItems] at hg; simp at hg
  | cons f rest ih =>
    cases f with
    | mk key val =>
      intro g hg
      rw [rDoMapItems] at hg
      by_cases hkey : key = name
      · subst hkey
        rw [hfind] at hg
        simp only [hhas, if_true] at hg
        exact ih g hg
      · cases hf : t.fields.reverse.find? (fun sf => sf.name == key) with
        | some sf =>
          rw [hf] at hg
          rcases List.mem_cons.mp hg with hg' | hg'
          · rw [hg']; simpa using hkey
          · exact ih g hg'
        | none =>
          rw [hf] at hg
          by_cases hhk : PathSet.Has R [fieldNamePE key] = true
          · simp only [hhk, if_true] at hg
            exact ih g hg
          · rw [Bool.eq_false_iff.mpr hhk] at hg
            simp only [Bool.false_eq_true, if_false] at hg
            rcases List.mem_cons.mp hg with hg' | hg'
            · rw [hg']; simpa using hkey
            · exact ih g hg'

theorem rDoMapItems_keeps_declared (s : RSchema) (t : RMap) (R : PathSet)
    (name : String)
    (hfind : (t.fields.reverse.find? (fun sf => sf.name == name)).isSome) :
    ∀ (items : List Field) (f : Field), f ∈ items → f.name = name →
      ∃ g ∈ rDoMapItems s t R items, g.name = name := by
  intro items
  induction items with
  | nil => intro f hf; simp at hf
  | cons hd rest ih =>
    cases hd with
    | mk key val =>
      intro f hf hfname
      rcases List.mem_cons.mp hf with hf' | hf'
      · have hkey : key = name := by rw [hf'] at hfname; simpa using hfname
        subst hkey
        rcases Option.isSome_iff_exists.mp hfind with ⟨sf, hsf⟩
        rw [rDoMapItems, hsf]
        exact ⟨_, List.mem_cons_self _ _, rfl⟩
      · rcases ih f hf' hfname with ⟨g, hg, hgname⟩
        rw [rDoMapItems]
        cases hf2 : t.fields.reverse.find? (fun sf => sf.name == key) with
        | some sf => exact ⟨g, List.mem_cons_of_mem _ hg, hgname⟩
        | none =>
          by_cases hhk : PathSet.Has R [fieldNamePE key] = true
          · simp only [hhk, if_true]
            exact ⟨g, hg, hgname⟩
          · rw [Bool.eq_false_iff.mpr hhk]
            simp only [Bool.false_eq_true, if_false]
            exact ⟨g, List.mem_cons_of_mem _ hg, hgname⟩

/-- C3 (amended): for a non-atomic map, an entry whose exact FieldName path
is in the removal set is dropped only when its name is not declared among
the struct fields (and then every entry of that name is dropped); an entry
whose name is declared always survives — it is recursed into but never
removed by exact match. -/
theorem rDoMap_exact_removal_by_declaredness (s : RSchema) (t : RMap)
    (R : PathSet) (items : List Field) (name : String)
    (hrel : t.elementRelationship ≠ .atomic) :
    ((t.fields.reverse.find? (fun sf => sf.name == name) = none) →
      PathSet.Has R [fieldNamePE name] = true →
      ∀ g ∈ (rDoMap s t R (.map items)).mapEntries, g.name ≠ name)
    ∧ ((t.fields.reverse.find? (fun sf => sf.name == name)).isSome →
      ∀ f ∈ items, f.name = name →
      ∃ g ∈ (rDoMap s t R (.map items)).mapEntries, g.name = name) := by
  rw [rDoMap_map]
  by_cases hlen : items.length = 0
  · have hnil : items = [] := List.length_eq_zero.mp hlen
    subst hnil
    constructor
    · intro _ _ g hg
      simp [Value.mapEntries] at hg
    · intro _ f hf
      simp at hf
  · have hcond : ¬(items.length = 0 ∨ t.elementRelationship = .atomic) := by
      rw [not_or]; exact ⟨hlen, hrel⟩
    rw [if_neg hcond]
    constructor
    · intro hfind hhas g hg
      by_cases hout : (rDoMapItems s t R items).length = 0
      · rw [if_pos hout] at hg
        simp [Value.mapEntries] at hg
      · rw [if_neg hout] at hg
        exact rDoMapItems_drops_undeclared s t R name hfind hhas items g
          (by simpa [Value.mapEntries] using hg)
    · intro hfind f hf hfname
      rcases rDoMapItems_keeps_declared s t R name hfind items f hf hfname
        with ⟨g, hg, hgname⟩
      have hout : ¬(rDoMapItems s t R items).length = 0 := by
        intro hh
        rw [List.length_eq_zero.mp hh] at hg
        simp at hg
      rw [if_neg hout]
      exact ⟨g, by simpa [Value.mapEntries] using hg, hgname⟩

/-- Witness for C3 (amended): in `{a:1, b:2}` against a struct schema
declaring only `a`, with removal set `{[a],[b]}`, the undeclared `b` is
dropped and the declared `a` survives. -/
theorem rDoMap_exact_removal_by_declaredness_witness :
    ((RMap.mk [RStructField.mk "a" (.inline .untyped)] none
        .associative).elementRelationship ≠ .atomic)
    ∧ (∀ g ∈ (rDoMap (RSchema.mk [])
        (RMap.mk [RStructField.mk "a" (.inline .untyped)] none .associative)
        [[fieldNamePE "a"], [fieldNamePE "b"]]
        (.map [Field.mk "a" (.int 1), Field.mk "b" (.int 2)])).mapEntries,
        g.name ≠ "b")
    ∧ (∃ g ∈ (rDoMap (RSchema.mk [])
        (RMap.mk [RStructField.mk "a" (.inline .untyped)] none .associative)
        [[fieldNamePE "a"], [fieldNamePE "b"]]
        (.map [Field.mk "a" (.int 1), Field.mk "b" (.int 2)])).mapEntries,
        g.name = "a") := by
  refine ⟨by simp, ?_, ?_⟩
  · exact (rDoMap_exact_removal_by_declaredness (RSchema.mk [])
      (RMap.mk [RStructField.mk "a" (.inline .untyped)] none .associative)
      [[fieldNamePE "a"], [fieldNamePE "b"]]
      [Field.mk "a" (.int 1), Field.mk "b" (.int 2)] "b" (by simp)).1
      (by simp [RStructField.name]) (by simp [PathSet.Has, fieldNamePE])
  · exact (rDoMap_exact_removal_by_declaredness (RSchema.mk [])
      (RMap.mk [RStructField.mk "a" (.inline .untyped)] none .associative)
      [[fieldNamePE "a"], [fieldNamePE "b"]]
      [Field.mk "a" (.int 1), Field.mk "b" (.int 2)] "a" (by simp)).2
      (by simp [RStructField.name]) (Field.mk "a" (.int 1)) (by simp) rfl

def Value.isFloat : Value → Bool
  | .float _ => true
  | _ => false

def Value.isInt : Value → Bool
  | .int _ => true
  | _ => false

def Value.isStr : Value → Bool
  | .str _ => true
  | _ => false

def Value.isBoolean : Value → Bool
  | .boolean _ => true
  | _ => false

def Value.isListV : Value → Bool
  | .list _ => true
  | _ => false

def Value.isMapV : Value → Bool
  | .map _ => true
  | _ => false

def Value.isNullV : Value → Bool
  | .null => true
  | _ => false

/-- C6 (amended): scalar-kind mismatches and struct-vs-non-map mismatches
report both the expected shape and the human-readable rendering of the
actual value; a list-vs-non-list mismatch reports only "expected list" with
no rendering of the actual value; a map-vs-non-map mismatch reports the
actual value's rendering but its message text names the expected shape
"list" ("expected list, found ..."). -/
theorem type_mismatch_error_messages (s : Schema) (path : Path) (v : Value) :
    (v.isFloat = false → v.isInt = false →
      doScalar path .numeric v
        = [⟨path, "expected numeric (int or float), got " ++ v.HumanReadable⟩])
    ∧ (v.isStr = false →
      doScalar path .string v
        = [⟨path, "expected string, got " ++ v.HumanReadable⟩])
    ∧ (v.isBoolean = false →
      doScalar path .boolean v
        = [⟨path, "expected boolean, got " ++ v.HumanReadable⟩])
    ∧ (∀ t : StructSchema, v.isNullV = false → v.isMapV = false →
      doStruct s path t v
        = [⟨path, "expected struct, got " ++ v.HumanReadable⟩])
    ∧ (∀ t : SList, v.isNullV = false → v.isListV = false →
      doList s path t v = [⟨path, "expected list"⟩])
    ∧ (∀ t : MapSchema, v.isNullV = false → v.isMapV = false →
      doMap s path t v
        = [⟨path, "expected list, found " ++ v.HumanReadable⟩]) := by
  refine ⟨?_, ?_, ?_, ?_, ?_, ?_⟩
  · intro h1 h2
    cases v with
    | float f => simp [Value.isFloat] at h1
    | int i => simp [Value.isInt] at h2
    | str x => rfl
    | boolean b => rfl
    | list l => rfl
    | map m => rfl
    | null => rfl
  · intro h1
    cases v with
    | str x => simp [Value.isStr] at h1
    | float f => rfl
    | int i => rfl
    | boolean b => rfl
    | list l => rfl
    | map m => rfl
    | null => rfl
  · intro h1
    cases v with
    | boolean b => simp [Value.isBoolean] at h1
    | float f => rfl
    | int i => rfl
    | str x => rfl
    | list l => rfl
    | map m => rfl
    | null => rfl
  · intro t h1 h2
    cases v with
    | null => simp [Value.isNullV] at h1
    | map m => simp [Value.isMapV] at h2
    | float f => rw [doStruct.eq_def]
    | int i => rw [doStruct.eq_def]
    | str x => rw [doStruct.eq_def]
    | boolean b => rw [doStruct.eq_def]
    | list l => rw [doStruct.eq_def]
  · intro t h1 h2
    cases v with
    | null => simp [Value.isNullV] at h1
    | list l => simp [Value.isListV] at h2
    | float f => rw [doList.eq_def]
    | int i => rw [doList.eq_def]
    | str x => rw [doList.eq_def]
    | boolean b => rw [doList.eq_def]
    | map m => rw [doList.eq_def]
  · intro t h1 h2
    cases v with
    | null => simp [Value.isNullV] at h1
    | map m => simp [Value.isMapV] at h2
    | float f => rw [doMap.eq_def]
    | int i => rw [doMap.eq_def]
    | str x => rw [doMap.eq_def]
    | boolean b => rw [doMap.eq_def]
    | list l => rw [doMap.eq_def]

/-- Witness for C6 (amended): each mismatch case evaluated at a concrete
offending value yields exactly the message forms proved above. -/
theorem type_mismatch_error_messages_witness :
    ((Value.str "x").isFloat = false ∧ (Value.str "x").isInt = false
      ∧ doScalar [] .numeric (.str "x")
        = [⟨[], "expected numeric (int or float), got "
            ++ (Value.str "x").HumanReadable⟩])
    ∧ ((Value.boolean true).isStr = false
      ∧ doScalar [] .string (.boolean true)
        = [⟨[], "expected string, got " ++ (Value.boolean true).HumanReadable⟩])
    ∧ ((Value.int 3).isBoolean = false
      ∧ doScalar [] .boolean (.int 3)
        = [⟨[], "expected boolean, got " ++ (Value.int 3).HumanReadable⟩])
    ∧ ((Value.int 3).isNullV = false ∧ (Value.int 3).isMapV = false
      ∧ doStruct (Schema.mk []) [] (StructSchema.mk []) (.int 3)
        = [⟨[], "expected struct, got " ++ (Value.int 3).HumanReadable⟩])
    ∧ ((Value.str "foo").isNullV = false ∧ (Value.str "foo").isListV = false
      ∧ doList (Schema.mk []) [] (SList.mk (.inline .untyped) .associative [])
          (.str "foo") = [⟨[], "expected list"⟩])
    ∧ ((Value.boolean false).isNullV = false
      ∧ (Value.boolean false).isMapV = false
      ∧ doMap (Schema.mk []) [] (MapSchema.mk (.inline .untyped))
          (.boolean false)
        = [⟨[], "expected list, found "
            ++ (Value.boolean false).HumanReadable⟩]) := by
  refine ⟨⟨rfl, rfl, ?_⟩, ⟨rfl, ?_⟩, ⟨rfl, ?_⟩, ⟨rfl, rfl, ?_⟩,
    ⟨rfl, rfl, ?_⟩, ⟨rfl, rfl, ?_⟩⟩
  · exact (type_mismatch_error_messages (Schema.mk []) [] (.str "x")).1 rfl rfl
  · exact (type_mismatch_error_messages (Schema.mk []) [] (.boolean true)).2.1 rfl
  · exact (type_mismatch_error_messages (Schema.mk []) [] (.int 3)).2.2.1 rfl
  · exact (type_mismatch_error_messages (Schema.mk []) [] (.int 3)).2.2.2.1
      (StructSchema.mk []) rfl rfl
  · exact (type_mismatch_error_messages (Schema.mk []) [] (.str "foo")).2.2.2.2.1
      (SList.mk (.inline .untyped) .associative []) rfl rfl
  · exact (type_mismatch_error_messages (Schema.mk []) []
      (.boolean false)).2.2.2.2.2 (MapSchema.mk (.inline .untyped)) rfl rfl

/-- `prefixOfChars pat s` is true iff `pat` is an initial segment of `s`. -/
def prefixOfChars : List Char → List Char → Bool
  | [], _ => true
  | _ :: _, [] => false
  | a :: as, b :: bs => a == b && prefixOfChars as bs

/-- `occursInChars pat s` is true iff `pat` occurs contiguously in `s`. -/
def occursInChars (pat : List Char) : List Char → Bool
  | [] => prefixOfChars pat []
  | c :: rest => prefixOfChars pat (c :: rest) || occursInChars pat rest

/-- `strContains s pat` is true iff `pat` occurs as a substring of `s`. -/
def strContains (s pat : String) : Bool := occursInChars pat.toList s.toList

/-- Counterexample for C6: the list-vs-non-list mismatch error for the
value `"foo"` is exactly "expected list", and that message does not contain
the human-readable rendering of the offending value. -/
theorem doList_mismatch_lacks_actual_rendering :
    doList (Schema.mk []) [] (SList.mk (.inline .untyped) .associative [])
        (.str "foo") = [⟨[], "expected list"⟩]
    ∧ strContains "expected list" (Value.HumanReadable (.str "foo")) = false := by
  constructor
  · rw [doList.eq_def]
  · have hr : Value.HumanReadable (.str "foo") = "\"foo\"" := by
      rw [Value.HumanReadable]
      rfl
    rw [hr]
    decide

/-- Counterexample for C5: removal is not idempotent in general.  Schema:
list "L" is associative with key `k`, element type "M"; map "M" has default
element type "M".  Removing the set `{[k={a:1}]/k/a, [k=null]}` from
`[{k:{a:1}}]` first rewrites the element's key field to null (changing its
identity to `[k=null]`); a second application then matches `[k=null]`
exactly and removes the whole element, so applying the removal twice yields
Null while applying it once yields `[{k:null}]`. -/
theorem remove_same_set_twice_removes_more :
    removeItemsWithSchema
        (RSchema.mk [⟨"L", .list (RList.mk (.namedType "M") .associative ["k"])⟩,
                     ⟨"M", .map (RMap.mk [] (some (.namedType "M")) .associative)⟩])
        (.namedType "L")
        [[keyPE [Field.mk "k" (.map [Field.mk "a" (.int 1)])], fieldNamePE "k",
          fieldNamePE "a"],
         [keyPE [Field.mk "k" .null]]]
        (removeItemsWithSchema
          (RSchema.mk [⟨"L", .list (RList.mk (.namedType "M") .associative ["k"])⟩,
                       ⟨"M", .map (RMap.mk [] (some (.namedType "M")) .associative)⟩])
          (.namedType "L")
          [[keyPE [Field.mk "k" (.map [Field.mk "a" (.int 1)])], fieldNamePE "k",
            fieldNamePE "a"],
           [keyPE [Field.mk "k" .null]]]
          (.list [.map [Field.mk "k" (.map [Field.mk "a" (.int 1)])]]))
      ≠ removeItemsWithSchema
        (RSchema.mk [⟨"L", .list (RList.mk (.namedType "M") .associative ["k"])⟩,
                     ⟨"M", .map (RMap.mk [] (some (.namedType "M")) .associative)⟩])
        (.namedType "L")
        [[keyPE [Field.mk "k" (.map [Field.mk "a" (.int 1)])], fieldNamePE "k",
          fieldNamePE "a"],
         [keyPE [Field.mk "k" .null]]]
        (.list [.map [Field.mk "k" (.map [Field.mk "a" (.int 1)])]]) := by
  have h1 : removeItemsWithSchema
      (RSchema.mk [⟨"L", .list (RList.mk (.namedType "M") .associative ["k"])⟩,
                   ⟨"M", .map (RMap.mk [] (some (.namedType "M")) .associative)⟩])
      (.namedType "L")
      [[keyPE [Field.mk "k" (.map [Field.mk "a" (.int 1)])], fieldNamePE "k",
        fieldNamePE "a"],
       [keyPE [Field.mk "k" .null]]]
      (.list [.map [Field.mk "k" (.map [Field.mk "a" (.int 1)])]])
      = .list [.map [Field.mk "k" .null]] := by
    simp [removeItemsWithSchema.eq_def, rDoList_list, rDoMap_map, rDoListItems,
          rDoMapItems, rListItemToPathElement, rKeyedItemToPathElement,
          collectKeyFields, Map.Get, PathSet.Has, PathSet.WithPrefix,
          RSchema.resolve, keyPE, fieldNamePE, zeroPE]
  have h2 : removeItemsWithSchema
      (RSchema.mk [⟨"L", .list (RList.mk (.namedType "M") .associative ["k"])⟩,
                   ⟨"M", .map (RMap.mk [] (some (.namedType "M")) .associative)⟩])
      (.namedType "L")
      [[keyPE [Field.mk "k" (.map [Field.mk "a" (.int 1)])], fieldNamePE "k",
        fieldNamePE "a"],
       [keyPE [Field.mk "k" .null]]]
      (.list [.map [Field.mk "k" .null]])
      = .null := by
    simp [removeItemsWithSchema.eq_def, rDoList_list, rDoMap_map, rDoListItems,
          rDoMapItems, rListItemToPathElement, rKeyedItemToPathElement,
          collectKeyFields, Map.Get, PathSet.Has, PathSet.WithPrefix,
          RSchema.resolve, keyPE, fieldNamePE, zeroPE]
  rw [h1, h2]
  simp

theorem withPrefix_empty_of_depth_one (R : PathSet)
    (h : ∀ p ∈ R, p.length = 1) (pe : PathElement) :
    PathSet.WithPrefix R pe = [] := by
  rw [PathSet.WithPrefix, List.filterMap_eq_nil]
  intro p hp
  cases p with
  | nil => rfl
  | cons q rest =>
    have hlen := h _ hp
    have hrest : rest = [] := by
      cases rest with
      | nil => rfl
      | cons x xs => simp at hlen
    simp [hrest]

theorem rDoListItems_depth_one (s : RSchema) (t : RList) (R : PathSet)
    (hrel : t.elementRelationship = .associative)
    (hWP : ∀ pe, PathSet.WithPrefix R pe = []) :
    ∀ (items : List Value) (i : Int),
      rDoListItems s t R i items
        = items.filter (fun it => !(PathSet.Has R [rPathElementOf t it])) := by
  intro items
  induction items with
  | nil => intro i; rw [rDoListItems]; rfl
  | cons item rest ih =>
    intro i
    rw [rDoListItems]
    have hpe : (match rListItemToPathElement t i item with
        | .ok pe => pe
        | .error _ => zeroPE) = rPathElementOf t item := by
      rw [rPathElementOf, rListItemToPathElement_index_free t hrel i 0]
    by_cases hHas : PathSet.Has R [rPathElementOf t item] = true
    · simp [hpe, hHas, ih]
    · have hHas' : PathSet.Has R [rPathElementOf t item] = false :=
        Bool.eq_false_iff.mpr hHas
      simp [hpe, hHas', hWP, ih]

theorem rDoMapItems_depth_one (s : RSchema) (t : RMap) (R : PathSet)
    (hWP : ∀ pe, PathSet.WithPrefix R pe = []) :
    ∀ (items : List Field),
      rDoMapItems s t R items
        = items.filter (fun f =>
            (t.fields.reverse.find? (fun sf => sf.name == f.name)).isSome
            || !(PathSet.Has R [fieldNamePE f.name])) := by
  intro items
  induction items with
  | nil => rw [rDoMapItems]; rfl
  | cons hd rest ih =>
    cases hd with
    | mk key val =>
      rw [rDoMapItems]
      cases hf : t.fields.reverse.find? (fun sf => sf.name == key) with
      | some sf => simp [hf, hWP, ih]
      | none =>
        by_cases hHas : PathSet.Has R [fieldNamePE key] = true
        · simp [hf, hHas, ih]
        · have hHas' : PathSet.Has R [fieldNamePE key] = false :=
            Bool.eq_false_iff.mpr hHas
          cases het : t.elementType with
          | some et => simp [hf, hHas', het, hWP, ih]
          | none => simp [hf, hHas', het, ih]

theorem rDoList_depth_one_idem (s : RSchema) (t : RList) (R : PathSet)
    (hWP : ∀ pe, PathSet.WithPrefix R pe = []) (v : Value) :
    rDoList s t R (rDoList s t R v) = rDoList s t R v := by
  cases v with
  | list items =>
    rw [rDoList_list]
    by_cases hc : items.length = 0 ∨ t.elementRelationship = .atomic
    · rw [if_pos hc, rDoList_list, if_pos hc]
    · have hrel : t.elementRelationship = .associative := by
        cases hrelc : t.elementRelationship with
        | atomic => exact absurd (Or.inr hrelc) hc
        | associative => rfl
      rw [if_neg hc, rDoListItems_depth_one s t R hrel hWP items 0]
      by_cases hF : (items.filter
          (fun it => !(PathSet.Has R [rPathElementOf t it]))).length = 0
      · rw [if_pos hF]
        exact rDoList_not_list _ _ _ _ (fun _ hh => by cases hh)
      · rw [if_neg hF, rDoList_list]
        have hc2 : ¬((items.filter
            (fun it => !(PathSet.Has R [rPathElementOf t it]))).length = 0
            ∨ t.elementRelationship = .atomic) := by
          rw [not_or, hrel]
          exact ⟨hF, by simp⟩
        rw [if_neg hc2, rDoListItems_depth_one s t R hrel hWP _ 0]
        rw [List.filter_filter]
        simp only [Bool.and_self]
        rw [if_neg hF]
  | float f =>
    have hv := rDoList_not_list s t R (.float f) (fun _ hh => by cases hh)
    rw [hv, hv]
  | int i =>
    have hv := rDoList_not_list s t R (.int i) (fun _ hh => by cases hh)
    rw [hv, hv]
  | str x =>
    have hv := rDoList_not_list s t R (.str x) (fun _ hh => by cases hh)
    rw [hv, hv]
  | boolean b =>
    have hv := rDoList_not_list s t R (.boolean b) (fun _ hh => by cases hh)
    rw [hv, hv]
  | map m =>
    have hv := rDoList_not_list s t R (.map m) (fun _ hh => by cases hh)
    rw [hv, hv]
  | null =>
    have hv := rDoList_not_list s t R .null (fun _ hh => by cases hh)
    rw [hv, hv]

theorem rDoMap_depth_one_idem (s : RSchema) (t : RMap) (R : PathSet)
    (hWP : ∀ pe, PathSet.WithPrefix R pe = []) (v : Value) :
    rDoMap s t R (rDoMap s t R v) = rDoMap s t R v := by
  cases v with
  | map items =>
    rw [rDoMap_map]
    by_cases hc : items.length = 0 ∨ t.elementRelationship = .atomic
    · rw [if_pos hc, rDoMap_map, if_pos hc]
    · rw [if_neg hc, rDoMapItems_depth_one s t R hWP items]
      by_cases hF : (items.filter (fun f =>
          (t.fields.reverse.find? (fun sf => sf.name == f.name)).isSome
          || !(PathSet.Has R [fieldNamePE f.name]))).length = 0
      · rw [if_pos hF]
        exact rDoMap_not_map _ _ _ _ (fun _ hh => by cases hh)
      · rw [if_neg hF, rDoMap_map]
        have hrel : ¬t.elementRelationship = .atomic := fun hh => hc (Or.inr hh)
        have hc2 : ¬((items.filter (fun f =>
            (t.fields.reverse.find? (fun sf => sf.name == f.name)).isSome
            || !(PathSet.Has R [fieldNamePE f.name]))).length = 0
            ∨ t.elementRelationship = .atomic) := by
          rw [not_or]
          exact ⟨hF, hrel⟩
        rw [if_neg hc2, rDoMapItems_depth_one s t R hWP]
        rw [List.filter_filter]
        simp only [Bool.and_self]
        rw [if_neg hF]
  | float f =>
    have hv := rDoMap_not_map s t R (.float f) (fun _ hh => by cases hh)
    rw [hv, hv]
  | int i =>
    have hv := rDoMap_not_map s t R (.int i) (fun _ hh => by cases hh)
    rw [hv, hv]
  | str x =>
    have hv := rDoMap_not_map s t R (.str x) (fun _ hh => by cases hh)
    rw [hv, hv]
  | boolean b =>
    have hv := rDoMap_not_map s t R (.boolean b) (fun _ hh => by cases hh)
    rw [hv, hv]
  | list items =>
    have hv := rDoMap_not_map s t R (.list items) (fun _ hh => by cases hh)
    rw [hv, hv]
  | null =>
    have hv := rDoMap_not_map s t R .null (fun _ hh => by cases hh)
    rw [hv, hv]

/-- C5 (amended): removal restricted to a path set whose paths all have
length one (direct children of the current level) is idempotent; in general
a second application can remove more than the first, because a first-pass
recursion that rewrites a keyed element's key field changes the element's
derived identity (see the counterexample). -/
theorem remove_depth_one_idempotent (s : RSchema) (tr : RTypeRef)
    (R : PathSet) (v : Value) (h : ∀ p ∈ R, p.length = 1) :
    removeItemsWithSchema s tr R (removeItemsWithSchema s tr R v)
      = removeItemsWithSchema s tr R v := by
  have hWP : ∀ pe, PathSet.WithPrefix R pe = [] :=
    withPrefix_empty_of_depth_one R h
  cases hres : RSchema.resolve s tr with
  | none =>
    have hid : ∀ x, removeItemsWithSchema s tr R x = x := fun x => by
      rw [removeItemsWithSchema.eq_def, hres]
    rw [hid, hid]
  | some a =>
    cases a with
    | scalar =>
      have hid : ∀ x, removeItemsWithSchema s tr R x = x := fun x => by
        rw [removeItemsWithSchema.eq_def, hres]
      rw [hid, hid]
    | untyped =>
      have hid : ∀ x, removeItemsWithSchema s tr R x = x := fun x => by
        rw [removeItemsWithSchema.eq_def, hres]
      rw [hid, hid]
    | list t =>
      have hL : ∀ x, removeItemsWithSchema s tr R x = rDoList s t R x :=
        fun x => by rw [removeItemsWithSchema.eq_def, hres]
      rw [hL, hL]
      exact rDoList_depth_one_idem s t R hWP v
    | map t =>
      have hM : ∀ x, removeItemsWithSchema s tr R x = rDoMap s t R x :=
        fun x => by rw [removeItemsWithSchema.eq_def, hres]
      rw [hM, hM]
      exact rDoMap_depth_one_idem s t R hWP v

/-- Witness for C5 (amended): removing the depth-one set `{[a]}` from
`{a:1, b:2}` twice equals removing it once. -/
theorem remove_depth_one_idempotent_witness :
    (∀ p ∈ ([[fieldNamePE "a"]] : PathSet), p.length = 1)
    ∧ removeItemsWithSchema (RSchema.mk [])
        (.inline (.map (RMap.mk [] (some (.inline .untyped)) .associative)))
        [[fieldNamePE "a"]]
        (removeItemsWithSchema (RSchema.mk [])
          (.inline (.map (RMap.mk [] (some (.inline .untyped)) .associative)))
          [[fieldNamePE "a"]]
          (.map [Field.mk "a" (.int 1), Field.mk "b" (.int 2)]))
      = removeItemsWithSchema (RSchema.mk [])
        (.inline (.map (RMap.mk [] (some (.inline .untyped)) .associative)))
        [[fieldNamePE "a"]]
        (.map [Field.mk "a" (.int 1), Field.mk "b" (.int 2)]) :=
  ⟨by simp, remove_depth_one_idempotent (RSchema.mk [])
    (.inline (.map (RMap.mk [] (some (.inline .untyped)) .associative)))
    [[fieldNamePE "a"]] (.map [Field.mk "a" (.int 1), Field.mk "b" (.int 2)])
    (by simp)⟩

end SMD
